import Mathlib

/-!
# serve2 `proto.Chain`: a chain of checkers in front of a handler

Shallow embedding of `src/proto/chain.go`.

* A Go function value may be `nil`; calling it is a run-time fault.  Function
  valued fields are therefore `Option`s and the operations that call them
  return `Except Fault _`.
* `[]byte` is a list of bytes, `[]interface{}` a list over an arbitrary type
  `Hint`, `net.Conn` and `error` are arbitrary types `Conn` and `Err` (their
  inhabitants are the interface values, the nil one included).
* A nil slice and an empty slice both have length 0 and `range` runs zero
  times over either; both are the empty list.
* Go `int` codes are only passed through, never computed with: they are `Int`.
* The function values are Go closures.  What a checker returns on
  `(header, hints)` is stated over function values without effects
  (`Checker`); the loop over closures that act on an ambient state is
  `checkLoopEff`, and the methods on a chain that itself lives in that state
  are `ChainRef.Check`, `ChainRef.Handle` and `ChainRef.String`.
-/

namespace proto

/-- One octet of the header. -/
abbrev Byte := Fin 256

/-- The run-time fault raised by Go when a nil function value is called. -/
inductive Fault where
  | nilFuncCall
  deriving DecidableEq, Repr

/-- A present checker: `func([]byte, []interface{}) (bool, int)`. -/
abbrev Checker (Hint : Type) := List Byte → List Hint → Bool × Int

/-- A present handler: `func(net.Conn) (net.Conn, error)`. -/
abbrev HandlerFn (Conn Err : Type) := Conn → Conn × Err

/-- The `Chain` struct: `Handler`, `Checkers`, `Description`. -/
structure Chain (Conn Err Hint : Type) where
  Handler : Option (HandlerFn Conn Err)
  Checkers : List (Option (Checker Hint))
  Description : String

variable {Conn Err Hint : Type}

/-- The method `(c *Chain) String()`: `return c.Description`. -/
def Chain.String (c : Chain Conn Err Hint) : String :=
  c.Description

/-- The method `(c *Chain) Handle(conn)`: `return c.Handler(conn)`. -/
def Chain.Handle (c : Chain Conn Err Hint) (conn : Conn) : Except Fault (Conn × Err) :=
  match c.Handler with
  | none => .error Fault.nilFuncCall
  | some handler => .ok (handler conn)

/-- The loop of `Check` over the remaining checkers:
`for _, check := range ... { ok, n := check(header, hints); if !ok { return ok, n } }`
followed by `return true, 0`. -/
def checkLoop (header : List Byte) (hints : List Hint) :
    List (Option (Checker Hint)) → Except Fault (Bool × Int)
  | [] => .ok (true, 0)
  | none :: _ => .error Fault.nilFuncCall
  | some check :: rest =>
    match check header hints with
    | (ok, n) => if !ok then .ok (ok, n) else checkLoop header hints rest

/-- The method `(c *Chain) Check(header, hints)`. -/
def Chain.Check (c : Chain Conn Err Hint) (header : List Byte) (hints : List Hint) :
    Except Fault (Bool × Int) :=
  checkLoop header hints c.Checkers

/-- The constructor `NewChain(handler, checkers...)`. -/
def NewChain (handler : Option (HandlerFn Conn Err)) (checkers : List (Option (Checker Hint))) :
    Chain Conn Err Hint :=
  { Handler := handler, Checkers := checkers, Description := "Chain" }

/-- The zero value `Chain{}`: nil handler, nil checker slice, empty description. -/
def zeroChain : Chain Conn Err Hint :=
  { Handler := none, Checkers := [], Description := "" }

/-! ## The loop over checkers with effects, and the call record -/

/-- A present checker whose call may also act on an ambient state `σ` (a Go
closure may write to variables it closes over, such as a call counter). -/
abbrev EffChecker (σ Hint : Type) := List Byte → List Hint → σ → (Bool × Int) × σ

/-- The loop of `Check` run over checkers with effects: the same statements as
`checkLoop`, with the ambient state threaded through the calls in program
order.  A fault or a return leaves the state as the last call left it. -/
def checkLoopEff {σ : Type} (header : List Byte) (hints : List Hint) :
    List (Option (EffChecker σ Hint)) → σ → Except Fault (Bool × Int) × σ
  | [], s => (.ok (true, 0), s)
  | none :: _, s => (.error Fault.nilFuncCall, s)
  | some check :: rest, s =>
    match check header hints s with
    | ((ok, n), s1) => if !ok then (.ok (ok, n), s1) else checkLoopEff header hints rest s1

/-- One entry of the call record: which position was called, and with which
arguments. -/
structure Call (Hint : Type) where
  index : Nat
  header : List Byte
  hints : List Hint

/-- The checker `f` at position `i`, wrapped so that each call appends an entry
to the call record before returning what `f` returns. -/
def recorded (i : Nat) (f : Checker Hint) : EffChecker (List (Call Hint)) Hint :=
  fun header hints log => (f header hints, log ++ [Call.mk i header hints])

/-- Wrap every present checker of a sequence with `recorded`, numbering the
positions from `k`; a nil function value stays nil. -/
def instrumentFrom (k : Nat) :
    List (Option (Checker Hint)) → List (Option (EffChecker (List (Call Hint)) Hint))
  | [] => []
  | c :: cs => c.map (recorded k) :: instrumentFrom (k + 1) cs

/-- One `Check` call on the chain with recording checkers, started with an
empty call record: the result of `Check` and the record it leaves. -/
def Chain.CheckRecorded (c : Chain Conn Err Hint) (header : List Byte) (hints : List Hint) :
    Except Fault (Bool × Int) × List (Call Hint) :=
  checkLoopEff header hints (instrumentFrom 0 c.Checkers) []

/-- The positions called by one `Check` call, in call order. -/
def Chain.invoked (c : Chain Conn Err Hint) (header : List Byte) (hints : List Hint) :
    List Nat :=
  (c.CheckRecorded header hints).2.map Call.index

/-! ## Reading of the evaluation rule in the specification -/

/-- Short-circuit evaluation as the specification words it, over present
predicates: the first predicate returning `ok = false` decides, with its own
code; if there is none the result is `(true, 0)`. -/
def shortCircuitEval (header : List Byte) (hints : List Hint) (fs : List (Checker Hint)) :
    Bool × Int :=
  match (fs.map (fun f => f header hints)).find? (fun r => !r.1) with
  | some r => (false, r.2)
  | none => (true, 0)

/-! ## Vocabulary of the properties -/

/-- What the checker at position `j` of a checker sequence returns on
`(header, hints)`; `none` when there is no such position or the function value
there is nil. -/
def verdictAt (header : List Byte) (hints : List Hint) (cs : List (Option (Checker Hint)))
    (j : Nat) : Option (Bool × Int) :=
  match cs[j]? with
  | some (some f) => some (f header hints)
  | _ => none

/-- What the checker at position `j` of the chain returns on `(header, hints)`. -/
def Chain.verdict (c : Chain Conn Err Hint) (header : List Byte) (hints : List Hint)
    (j : Nat) : Option (Bool × Int) :=
  verdictAt header hints c.Checkers j

/-- The checker is present and returns `ok = true` on `(header, hints)`. -/
def passes (header : List Byte) (hints : List Hint) : Option (Checker Hint) → Bool
  | some f => (f header hints).1
  | none => false

/-- The checker is present and returns `ok = false` on `(header, hints)`. -/
def rejects (header : List Byte) (hints : List Hint) : Option (Checker Hint) → Bool
  | some f => !(f header hints).1
  | none => false

/-- The number of checker calls one run of the loop makes: every present
checker up to and including the first that rejects, stopping before a nil
function value. -/
def callCount (header : List Byte) (hints : List Hint) : List (Option (Checker Hint)) → Nat
  | [] => 0
  | none :: _ => 0
  | some f :: rest => if (f header hints).1 then callCount header hints rest + 1 else 1

/-! ## Sample checkers and handlers used at concrete inputs -/

/-- A checker that returns `(ok, n)` on every input. -/
def constChecker (ok : Bool) (n : Int) : Checker Hint :=
  fun _ _ => (ok, n)

/-- A checker that accepts exactly the headers starting with byte `b`, with
code `n` on rejection and `m` on acceptance. -/
def firstByteChecker (b : Byte) (n m : Int) : Checker Hint :=
  fun header _ => if header.head? = some b then (true, m) else (false, n)

/-- A handler that succeeds: the connection it returns and the nil error. -/
def okHandler : HandlerFn Nat String :=
  fun conn => (conn + 100, "")

/-- A handler that fails with a sentinel error. -/
def errHandler : HandlerFn Nat String :=
  fun _ => (0, "sentinel")

/-- Pass with code 3, then reject with 7, then reject with 9. -/
def chainPassRejectReject : Chain Nat String Nat :=
  { Handler := some okHandler
    Checkers := [some (constChecker true 3), some (constChecker false 7),
      some (constChecker false 9)]
    Description := "sample" }

/-- Three passing checkers with the distinct codes 1, 2, 3. -/
def chainAllPass : Chain Nat String Nat :=
  { Handler := some okHandler
    Checkers := [some (constChecker true 1), some (constChecker true 2),
      some (constChecker true 3)]
    Description := "sample" }

/-- Reject with code 7, then a second checker that would pass. -/
def chainRejectPass : Chain Nat String Nat :=
  { Handler := some okHandler
    Checkers := [some (constChecker false 7), some (constChecker true 0)]
    Description := "sample" }

/-- A chain whose only checker rejects every input, in front of the failing handler. -/
def chainRejectAll : Chain Nat String Nat :=
  { Handler := some errHandler
    Checkers := [some (constChecker false 1)]
    Description := "closed" }

/-- A chain that looks at the first header byte, then rejects with code 4. -/
def chainByteA : Chain Nat String Nat :=
  { Handler := some okHandler
    Checkers := [some (firstByteChecker 22 5 1), some (constChecker false 4)]
    Description := "a" }

/-- A chain with no handler whose checkers agree with `chainByteA` on headers
starting with byte 22 and differ from them on other headers. -/
def chainByteB : Chain Nat String Nat :=
  { Handler := none
    Checkers := [some (constChecker true 1), some (firstByteChecker 23 4 0)]
    Description := "b" }

/-! ## The methods on a chain that lives in the ambient state

The receiver of the methods is a pointer, and the function values stored in a
chain are Go closures: a call may write to whatever the closure can reach, the
chain behind the receiver included.  The methods are therefore also given with
the ambient state `σ` explicit, the chain being read from the state through the
receiver. -/

/-- The Go type `string` of a description. -/
abbrev Label := String

/-- A present handler whose call may also act on the ambient state `σ`. -/
abbrev EffHandler (σ Conn Err : Type) := Conn → σ → (Conn × Err) × σ

/-- The `Chain` struct with closures over the ambient state `σ` as its function
values. -/
structure EffChain (σ Conn Err Hint : Type) where
  Handler : Option (EffHandler σ Conn Err)
  Checkers : List (Option (EffChecker σ Hint))
  Description : Label

/-- The receiver `c *Chain`: `deref s` is the chain found behind the pointer in
the state `s`. -/
structure ChainRef (σ Conn Err Hint : Type) where
  deref : σ → EffChain σ Conn Err Hint

/-- The method `Check` on a chain in the ambient state.  The range expression
`c.Checkers` is evaluated once, in the state in which the loop starts; the
loop then calls the checkers in program order, each in the state the previous
call left. -/
def ChainRef.Check {σ : Type} (c : ChainRef σ Conn Err Hint) (header : List Byte)
    (hints : List Hint) (s : σ) : Except Fault (Bool × Int) × σ :=
  checkLoopEff header hints (c.deref s).Checkers s

/-- The method `Handle` on a chain in the ambient state: `return c.Handler(conn)`
reads the field and calls it. -/
def ChainRef.Handle {σ : Type} (c : ChainRef σ Conn Err Hint) (conn : Conn) (s : σ) :
    Except Fault (Conn × Err) × σ :=
  match (c.deref s).Handler with
  | none => (.error Fault.nilFuncCall, s)
  | some handler =>
    match handler conn s with
    | (r, s1) => (.ok r, s1)

/-- The method `String` on a chain in the ambient state: `return c.Description`. -/
def ChainRef.String {σ : Type} (c : ChainRef σ Conn Err Hint) (s : σ) : Label × σ :=
  ((c.deref s).Description, s)

/-- A present checker without effects, as a closure: it returns what `f`
returns and leaves the ambient state as it is. -/
def pureChecker {σ : Type} (f : Checker Hint) : EffChecker σ Hint :=
  fun header hints s => (f header hints, s)

/-- A present handler without effects, as a closure. -/
def pureHandler {σ : Type} (h : HandlerFn Conn Err) : EffHandler σ Conn Err :=
  fun conn s => (h conn, s)

/-- A chain of function values without effects, as a chain of closures. -/
def Chain.lift {σ : Type} (c : Chain Conn Err Hint) : EffChain σ Conn Err Hint :=
  { Handler := c.Handler.map pureHandler
    Checkers := c.Checkers.map (Option.map pureChecker)
    Description := c.Description }

/-- A receiver behind which the chain `c` stands in every state. -/
def Chain.fixedRef {σ : Type} (c : Chain Conn Err Hint) : ChainRef σ Conn Err Hint :=
  ChainRef.mk (fun _ => c.lift)

/-- A small ambient state: the description stored in the chain, whether the
handler and checker fields of the chain have been overwritten with nil, and a
call counter owned by a closure. -/
structure Heap where
  description : Label
  wiped : Bool
  count : Nat

/-- The state before any call. -/
def heap0 : Heap :=
  Heap.mk "sample" false 0

/-- A checker that assigns to the three fields of the chain it belongs to
(`c.Description = "changed"; c.Handler = nil; c.Checkers = nil`) and passes. -/
def writerChecker : EffChecker Heap Nat :=
  fun _ _ s => ((true, 0), Heap.mk "changed" true s.count)

/-- A checker without effects that rejects with code 7. -/
def rejectSeven : EffChecker Heap Nat :=
  fun _ _ s => ((false, 7), s)

/-- A handler that assigns to the description of the chain it belongs to and
returns the connection with the nil error. -/
def writerHandler : EffHandler Heap Nat Label :=
  fun conn s => ((conn, ""), Heap.mk "handled" s.wiped s.count)

/-- The chain `[writerChecker, rejectSeven]` with `writerHandler`, as it stands
in the state. -/
def writerRef : ChainRef Heap Nat Label Nat :=
  ChainRef.mk (fun s =>
    { Handler := if s.wiped then none else some writerHandler
      Checkers := if s.wiped then [] else [some writerChecker, some rejectSeven]
      Description := s.description })

/-- A checker that counts its calls: it passes on its first call and rejects
with code 2 on every later call. -/
def counterChecker : EffChecker Heap Nat :=
  fun _ _ s => (if s.count = 0 then (true, 0) else (false, 2),
    Heap.mk s.description s.wiped (s.count + 1))

/-- The chain `[counterChecker]` without handler, as it stands in the state. -/
def counterRef : ChainRef Heap Nat Label Nat :=
  ChainRef.mk (fun s =>
    { Handler := none
      Checkers := [some counterChecker]
      Description := s.description })

/-- A chain whose only checker rejects with code 0. -/
def chainRejectZero : Chain Nat String Nat :=
  { Handler := some okHandler
    Checkers := [some (constChecker false 0)]
    Description := "zero" }

/-! ## Basic facts about the loop -/

theorem checkLoop_nil (header : List Byte) (hints : List Hint) :
    checkLoop header hints ([] : List (Option (Checker Hint))) = .ok (true, 0) := rfl

theorem checkLoop_cons_none (header : List Byte) (hints : List Hint)
    (rest : List (Option (Checker Hint))) :
    checkLoop header hints (none :: rest) = .error Fault.nilFuncCall := rfl

theorem checkLoop_cons_reject (header : List Byte) (hints : List Hint)
    (f : Checker Hint) (rest : List (Option (Checker Hint))) (n : Int)
    (hf : f header hints = (false, n)) :
    checkLoop header hints (some f :: rest) = .ok (false, n) := by
  simp [checkLoop, hf]

theorem checkLoop_cons_pass (header : List Byte) (hints : List Hint)
    (f : Checker Hint) (rest : List (Option (Checker Hint))) (m : Int)
    (hf : f header hints = (true, m)) :
    checkLoop header hints (some f :: rest) = checkLoop header hints rest := by
  simp [checkLoop, hf]

theorem verdictAt_cons_zero (header : List Byte) (hints : List Hint)
    (c : Option (Checker Hint)) (cs : List (Option (Checker Hint))) :
    verdictAt header hints (c :: cs) 0 = c.map (fun f => f header hints) := by
  cases c <;> simp [verdictAt]

theorem verdictAt_cons_succ (header : List Byte) (hints : List Hint)
    (c : Option (Checker Hint)) (cs : List (Option (Checker Hint))) (j : Nat) :
    verdictAt header hints (c :: cs) (j + 1) = verdictAt header hints cs j := by
  simp [verdictAt]

theorem verdictAt_nil (header : List Byte) (hints : List Hint) (j : Nat) :
    verdictAt header hints ([] : List (Option (Checker Hint))) j = none := by
  simp [verdictAt]

/-- The loop returns the code of the first rejecting checker when every
checker before it passes. -/
theorem checkLoop_first_reject (header : List Byte) (hints : List Hint) :
    ∀ (cs : List (Option (Checker Hint))) (i : Nat) (n : Int),
      verdictAt header hints cs i = some (false, n) →
      (∀ j, j < i → ∃ m, verdictAt header hints cs j = some (true, m)) →
      checkLoop header hints cs = .ok (false, n) := by
  intro cs
  induction cs with
  | nil =>
    intro i n hi _
    simp [verdictAt_nil] at hi
  | cons c cs ih =>
    intro i n hi hbefore
    cases i with
    | zero =>
      rw [verdictAt_cons_zero] at hi
      cases c with
      | none => simp at hi
      | some f =>
        simp only [Option.map_some', Option.some.injEq] at hi
        exact checkLoop_cons_reject header hints f cs n hi
    | succ i =>
      obtain ⟨m, hm⟩ := hbefore 0 (Nat.succ_pos i)
      rw [verdictAt_cons_zero] at hm
      cases c with
      | none => simp at hm
      | some f =>
        simp only [Option.map_some', Option.some.injEq] at hm
        rw [checkLoop_cons_pass header hints f cs m hm]
        rw [verdictAt_cons_succ] at hi
        apply ih i n hi
        intro j hj
        obtain ⟨m', hm'⟩ := hbefore (j + 1) (Nat.succ_lt_succ hj)
        rw [verdictAt_cons_succ] at hm'
        exact ⟨m', hm'⟩

/-- The loop accepts with code 0 exactly when every checker is present and passes. -/
theorem checkLoop_accepts_iff (header : List Byte) (hints : List Hint) :
    ∀ (cs : List (Option (Checker Hint))),
      (∃ n, checkLoop header hints cs = .ok (true, n)) ↔
        ∀ ck ∈ cs, passes header hints ck = true := by
  intro cs
  induction cs with
  | nil => simp [checkLoop]
  | cons c cs ih =>
    cases c with
    | none => simp [checkLoop, passes]
    | some f =>
      rcases hf : f header hints with ⟨ok, m⟩
      cases ok with
      | true =>
        rw [checkLoop_cons_pass header hints f cs m hf, ih]
        simp [passes, hf]
      | false =>
        rw [checkLoop_cons_reject header hints f cs m hf]
        simp [passes, hf]

/-- When the loop accepts, the code is 0. -/
theorem checkLoop_accept_code (header : List Byte) (hints : List Hint) :
    ∀ (cs : List (Option (Checker Hint))) (n : Int),
      checkLoop header hints cs = .ok (true, n) → n = 0 := by
  intro cs
  induction cs with
  | nil =>
    intro n h
    simp [checkLoop] at h
    exact h.symm
  | cons c cs ih =>
    intro n h
    cases c with
    | none => simp [checkLoop] at h
    | some f =>
      rcases hf : f header hints with ⟨ok, m⟩
      cases ok with
      | true =>
        rw [checkLoop_cons_pass header hints f cs m hf] at h
        exact ih n h
      | false =>
        rw [checkLoop_cons_reject header hints f cs m hf] at h
        simp at h

/-- With every checker present, a rejecting checker makes the loop reject. -/
theorem checkLoop_rejects_of_mem (header : List Byte) (hints : List Hint) :
    ∀ (cs : List (Option (Checker Hint))),
      (∀ ck ∈ cs, ck ≠ none) →
      (∃ ck ∈ cs, rejects header hints ck = true) →
      ∃ n, checkLoop header hints cs = .ok (false, n) := by
  intro cs
  induction cs with
  | nil => simp
  | cons c cs ih =>
    intro hpres hrej
    cases c with
    | none => exact absurd rfl (hpres none (List.mem_cons_self _ _))
    | some f =>
      rcases hf : f header hints with ⟨ok, m⟩
      cases ok with
      | false => exact ⟨m, checkLoop_cons_reject header hints f cs m hf⟩
      | true =>
        rw [checkLoop_cons_pass header hints f cs m hf]
        apply ih (fun ck hck => hpres ck (List.mem_cons_of_mem _ hck))
        obtain ⟨ck, hck, hr⟩ := hrej
        rcases List.mem_cons.mp hck with h | h
        · subst h
          simp [rejects, hf] at hr
        · exact ⟨ck, h, hr⟩

/-! ## Facts about the recorded run -/

/-- Running the loop over the recording checkers returns what the plain loop
returns and appends one entry per call, for the positions `k, k+1, ...` in
order, each with the arguments of `Check`. -/
theorem checkLoopEff_instrumentFrom (header : List Byte) (hints : List Hint) :
    ∀ (cs : List (Option (Checker Hint))) (k : Nat) (log : List (Call Hint)),
      checkLoopEff header hints (instrumentFrom k cs) log =
        (checkLoop header hints cs,
          log ++ (List.range' k (callCount header hints cs)).map
            (fun i => Call.mk i header hints)) := by
  intro cs
  induction cs with
  | nil =>
    intro k log
    simp [instrumentFrom, checkLoopEff, checkLoop, callCount]
  | cons c cs ih =>
    intro k log
    cases c with
    | none => simp [instrumentFrom, checkLoopEff, checkLoop, callCount]
    | some f =>
      rcases hf : f header hints with ⟨ok, m⟩
      cases ok with
      | false =>
        simp [instrumentFrom, checkLoopEff, checkLoop, callCount, recorded, hf]
      | true =>
        simp [instrumentFrom, checkLoopEff, checkLoop, callCount, recorded, hf, ih,
          List.range'_succ]

theorem CheckRecorded_eq (c : Chain Conn Err Hint) (header : List Byte) (hints : List Hint) :
    c.CheckRecorded header hints =
      (c.Check header hints,
        (List.range (callCount header hints c.Checkers)).map
          (fun i => Call.mk i header hints)) := by
  simp [Chain.CheckRecorded, Chain.Check, checkLoopEff_instrumentFrom, List.range_eq_range']

theorem invoked_eq_range (c : Chain Conn Err Hint) (header : List Byte) (hints : List Hint) :
    c.invoked header hints = List.range (callCount header hints c.Checkers) := by
  simp [Chain.invoked, CheckRecorded_eq, Function.comp_def]

theorem callCount_le_length (header : List Byte) (hints : List Hint) :
    ∀ (cs : List (Option (Checker Hint))), callCount header hints cs ≤ cs.length := by
  intro cs
  induction cs with
  | nil => simp [callCount]
  | cons c cs ih =>
    cases c with
    | none => simp [callCount]
    | some f =>
      simp only [callCount, List.length_cons]
      split <;> omega

theorem callCount_all_pass (header : List Byte) (hints : List Hint) :
    ∀ (cs : List (Option (Checker Hint))),
      (∀ ck ∈ cs, passes header hints ck = true) → callCount header hints cs = cs.length := by
  intro cs
  induction cs with
  | nil => simp [callCount]
  | cons c cs ih =>
    intro hall
    have h0 := hall c (List.mem_cons_self _ _)
    cases c with
    | none => simp [passes] at h0
    | some f =>
      simp only [passes] at h0
      simp only [callCount, h0, if_true, List.length_cons]
      rw [ih (fun ck hck => hall ck (List.mem_cons_of_mem _ hck))]

theorem callCount_le_of_reject (header : List Byte) (hints : List Hint) :
    ∀ (cs : List (Option (Checker Hint))) (i : Nat) (n : Int),
      verdictAt header hints cs i = some (false, n) → callCount header hints cs ≤ i + 1 := by
  intro cs
  induction cs with
  | nil =>
    intro i n hi
    simp [callCount]
  | cons c cs ih =>
    intro i n hi
    cases c with
    | none => simp [callCount]
    | some f =>
      cases i with
      | zero =>
        rw [verdictAt_cons_zero] at hi
        simp only [Option.map_some', Option.some.injEq] at hi
        simp [callCount, hi]
      | succ i =>
        rw [verdictAt_cons_succ] at hi
        have := ih i n hi
        simp only [callCount]
        split <;> omega

/-- Two checker sequences of the same length with the same verdict at every
position give the same result. -/
theorem checkLoop_congr (header : List Byte) (hints : List Hint) :
    ∀ (cs1 cs2 : List (Option (Checker Hint))),
      cs1.length = cs2.length →
      (∀ j, verdictAt header hints cs1 j = verdictAt header hints cs2 j) →
      checkLoop header hints cs1 = checkLoop header hints cs2 := by
  intro cs1
  induction cs1 with
  | nil =>
    intro cs2 hlen _
    cases cs2 with
    | nil => rfl
    | cons c cs => simp at hlen
  | cons c1 cs1 ih =>
    intro cs2 hlen hv
    cases cs2 with
    | nil => simp at hlen
    | cons c2 cs2 =>
      have h0 := hv 0
      rw [verdictAt_cons_zero, verdictAt_cons_zero] at h0
      have htail : checkLoop header hints cs1 = checkLoop header hints cs2 := by
        apply ih cs2 (by simpa using hlen)
        intro j
        have := hv (j + 1)
        rwa [verdictAt_cons_succ, verdictAt_cons_succ] at this
      cases c1 with
      | none =>
        cases c2 with
        | none => rfl
        | some g => simp at h0
      | some f =>
        cases c2 with
        | none => simp at h0
        | some g =>
          simp only [Option.map_some', Option.some.injEq] at h0
          simp only [checkLoop, h0, htail]

/-- Over present checkers the loop computes the short-circuit evaluation of the
specification. -/
theorem checkLoop_map_some (header : List Byte) (hints : List Hint) :
    ∀ (fs : List (Checker Hint)),
      checkLoop header hints (fs.map some) = .ok (shortCircuitEval header hints fs) := by
  intro fs
  induction fs with
  | nil => simp [checkLoop, shortCircuitEval]
  | cons f fs ih =>
    rcases hf : f header hints with ⟨ok, m⟩
    cases ok with
    | false =>
      simp [checkLoop, shortCircuitEval, hf]
    | true =>
      rw [List.map_cons, checkLoop_cons_pass header hints f _ m hf, ih]
      simp [shortCircuitEval, hf]

/-! ## Frame, totality, composition and shape of the loop -/

/-- The loop itself never writes to the ambient state: whatever part of the
state every present checker leaves alone is left alone by the whole run. -/
theorem checkLoopEff_frame {σ α : Type} (view : σ → α) (header : List Byte) (hints : List Hint) :
    ∀ (cs : List (Option (EffChecker σ Hint))) (s : σ),
      (∀ f, some f ∈ cs → ∀ t, view (f header hints t).2 = view t) →
      view (checkLoopEff header hints cs s).2 = view s := by
  intro cs
  induction cs with
  | nil =>
    intro s _
    rfl
  | cons c cs ih =>
    intro s hframe
    cases c with
    | none => rfl
    | some f =>
      have hf := hframe f (List.mem_cons_self _ _) s
      rcases hr : f header hints s with ⟨⟨ok, n⟩, s1⟩
      rw [hr] at hf
      cases ok with
      | false =>
        simp only [checkLoopEff, hr]
        exact hf
      | true =>
        simp only [checkLoopEff, hr]
        have := ih s1 (fun g hg t => hframe g (List.mem_cons_of_mem _ hg) t)
        simpa [hf] using this

/-- Over lifted checkers the loop with effects returns what the plain loop
returns. -/
theorem checkLoopEff_pureChecker {σ : Type} (header : List Byte) (hints : List Hint) :
    ∀ (cs : List (Option (Checker Hint))) (s : σ),
      (checkLoopEff header hints (cs.map (Option.map pureChecker)) s).1 =
        checkLoop header hints cs := by
  intro cs
  induction cs with
  | nil =>
    intro s
    rfl
  | cons c cs ih =>
    intro s
    cases c with
    | none => rfl
    | some f =>
      rcases hf : f header hints with ⟨ok, n⟩
      cases ok with
      | false => simp [checkLoopEff, checkLoop, pureChecker, hf]
      | true => simp [checkLoopEff, checkLoop, pureChecker, hf, ih]

/-- Behind a fixed receiver with function values without effects, `Check` on
the chain in the state returns what the plain `Check` returns and leaves the
state as it is. -/
theorem fixedRef_Check {σ : Type} (c : Chain Conn Err Hint) (header : List Byte)
    (hints : List Hint) (s : σ) :
    (c.fixedRef : ChainRef σ Conn Err Hint).Check header hints s =
      (c.Check header hints, s) := by
  have h1 : ((c.fixedRef : ChainRef σ Conn Err Hint).Check header hints s).1 =
      c.Check header hints := checkLoopEff_pureChecker header hints c.Checkers s
  have h2 : ((c.fixedRef : ChainRef σ Conn Err Hint).Check header hints s).2 = s := by
    apply checkLoopEff_frame id header hints
    intro f hf t
    simp only [Chain.fixedRef, Chain.lift, List.mem_map] at hf
    obtain ⟨ck, _, hck⟩ := hf
    cases ck with
    | none => simp at hck
    | some g =>
      simp only [Option.map_some', Option.some.injEq] at hck
      subst hck
      rfl
  exact Prod.ext h1 h2

/-- With every function value present the loop returns a value, of the form
`(true, 0)` or `(false, n)`. -/
theorem checkLoop_present (header : List Byte) (hints : List Hint) :
    ∀ (cs : List (Option (Checker Hint))),
      (∀ ck ∈ cs, ck ≠ none) →
      checkLoop header hints cs = .ok (true, 0) ∨
        ∃ n, checkLoop header hints cs = .ok (false, n) := by
  intro cs
  induction cs with
  | nil =>
    intro _
    exact Or.inl rfl
  | cons c cs ih =>
    intro hpres
    cases c with
    | none => exact absurd rfl (hpres none (List.mem_cons_self _ _))
    | some f =>
      rcases hf : f header hints with ⟨ok, m⟩
      cases ok with
      | false => exact Or.inr ⟨m, checkLoop_cons_reject header hints f cs m hf⟩
      | true =>
        rw [checkLoop_cons_pass header hints f cs m hf]
        exact ih (fun ck hck => hpres ck (List.mem_cons_of_mem _ hck))

theorem checkLoop_append_of_reject (header : List Byte) (hints : List Hint) :
    ∀ (cs1 cs2 : List (Option (Checker Hint))) (n : Int),
      checkLoop header hints cs1 = .ok (false, n) →
      checkLoop header hints (cs1 ++ cs2) = .ok (false, n) := by
  intro cs1
  induction cs1 with
  | nil =>
    intro cs2 n h
    simp [checkLoop] at h
  | cons c cs1 ih =>
    intro cs2 n h
    cases c with
    | none => simp [checkLoop] at h
    | some f =>
      rcases hf : f header hints with ⟨ok, m⟩
      cases ok with
      | false =>
        rw [checkLoop_cons_reject header hints f cs1 m hf] at h
        rw [List.cons_append, checkLoop_cons_reject header hints f _ m hf]
        exact h
      | true =>
        rw [checkLoop_cons_pass header hints f cs1 m hf] at h
        rw [List.cons_append, checkLoop_cons_pass header hints f _ m hf]
        exact ih cs2 n h

theorem checkLoop_append_of_accept (header : List Byte) (hints : List Hint) :
    ∀ (cs1 cs2 : List (Option (Checker Hint))) (n : Int),
      checkLoop header hints cs1 = .ok (true, n) →
      checkLoop header hints (cs1 ++ cs2) = checkLoop header hints cs2 := by
  intro cs1
  induction cs1 with
  | nil =>
    intro cs2 n _
    rfl
  | cons c cs1 ih =>
    intro cs2 n h
    cases c with
    | none => simp [checkLoop] at h
    | some f =>
      rcases hf : f header hints with ⟨ok, m⟩
      cases ok with
      | false =>
        rw [checkLoop_cons_reject header hints f cs1 m hf] at h
        simp at h
      | true =>
        rw [checkLoop_cons_pass header hints f cs1 m hf] at h
        rw [List.cons_append, checkLoop_cons_pass header hints f _ m hf]
        exact ih cs2 n h

theorem checkLoop_append_of_fault (header : List Byte) (hints : List Hint) :
    ∀ (cs1 cs2 : List (Option (Checker Hint))) (e : Fault),
      checkLoop header hints cs1 = .error e →
      checkLoop header hints (cs1 ++ cs2) = .error e := by
  intro cs1
  induction cs1 with
  | nil =>
    intro cs2 e h
    simp [checkLoop] at h
  | cons c cs1 ih =>
    intro cs2 e h
    cases c with
    | none => exact h
    | some f =>
      rcases hf : f header hints with ⟨ok, m⟩
      cases ok with
      | false =>
        rw [checkLoop_cons_reject header hints f cs1 m hf] at h
        simp at h
      | true =>
        rw [checkLoop_cons_pass header hints f cs1 m hf] at h
        rw [List.cons_append, checkLoop_cons_pass header hints f _ m hf]
        exact ih cs2 e h

/-- A passing checker in the middle of a sequence does not change what the
loop returns. -/
theorem checkLoop_insert_pass (header : List Byte) (hints : List Hint)
    (f : Checker Hint) (m : Int) (hf : f header hints = (true, m)) :
    ∀ (pre post : List (Option (Checker Hint))),
      checkLoop header hints (pre ++ some f :: post) = checkLoop header hints (pre ++ post) := by
  intro pre
  induction pre with
  | nil =>
    intro post
    exact checkLoop_cons_pass header hints f post m hf
  | cons c pre ih =>
    intro post
    cases c with
    | none => rfl
    | some g =>
      rcases hg : g header hints with ⟨ok, k⟩
      cases ok with
      | false =>
        rw [List.cons_append, List.cons_append,
          checkLoop_cons_reject header hints g _ k hg,
          checkLoop_cons_reject header hints g _ k hg]
      | true =>
        rw [List.cons_append, List.cons_append,
          checkLoop_cons_pass header hints g _ k hg,
          checkLoop_cons_pass header hints g _ k hg]
        exact ih post

/-- A rejection returned by the loop is the pair returned by one of the
checkers. -/
theorem checkLoop_reject_mem (header : List Byte) (hints : List Hint) :
    ∀ (cs : List (Option (Checker Hint))) (n : Int),
      checkLoop header hints cs = .ok (false, n) →
      ∃ f, some f ∈ cs ∧ f header hints = (false, n) := by
  intro cs
  induction cs with
  | nil =>
    intro n h
    simp [checkLoop] at h
  | cons c cs ih =>
    intro n h
    cases c with
    | none => simp [checkLoop] at h
    | some f =>
      rcases hf : f header hints with ⟨ok, m⟩
      cases ok with
      | false =>
        rw [checkLoop_cons_reject header hints f cs m hf] at h
        simp only [Except.ok.injEq, Prod.mk.injEq, true_and] at h
        subst h
        exact ⟨f, List.mem_cons_self _ _, hf⟩
      | true =>
        rw [checkLoop_cons_pass header hints f cs m hf] at h
        obtain ⟨g, hg, hgr⟩ := ih n h
        exact ⟨g, List.mem_cons_of_mem _ hg, hgr⟩

/-! ## Results on `Check` -/

/-- C1: if the checker at position `i` returns `(false, n)` on `(header, hints)`
and every checker before `i` returns `ok = true` there (so `i` is the first
position that rejects), then `Check` returns exactly `(false, n)`: the code of
the first failing checker, whatever the checkers after `i` return and whatever
codes the passing checkers before `i` return. -/
theorem Check_returns_first_rejection (c : Chain Conn Err Hint) (header : List Byte)
    (hints : List Hint) (i : Nat) (n : Int)
    (hi : c.verdict header hints i = some (false, n))
    (hbefore : ∀ j, j < i → ∃ m, c.verdict header hints j = some (true, m)) :
    c.Check header hints = .ok (false, n) :=
  checkLoop_first_reject header hints c.Checkers i n hi hbefore

/-- Instance of C1: pass with 3, reject with 7, reject with 9 gives `(false, 7)`. -/
theorem Check_returns_first_rejection_witness :
    chainPassRejectReject.verdict [22, 3] [] 1 = some (false, 7) ∧
      chainPassRejectReject.Check [22, 3] [] = .ok (false, 7) :=
  ⟨rfl, Check_returns_first_rejection chainPassRejectReject [22, 3] [] 1 7 rfl
    (fun j hj => by
      have h0 : j = 0 := by omega
      subst h0
      exact ⟨3, rfl⟩)⟩

/-- C2: if every checker of the chain returns `ok = true` on `(header, hints)`,
then `Check` returns exactly `(true, 0)`, whatever codes came with `ok = true`. -/
theorem Check_all_pass (c : Chain Conn Err Hint) (header : List Byte) (hints : List Hint)
    (hall : ∀ ck ∈ c.Checkers, passes header hints ck = true) :
    c.Check header hints = .ok (true, 0) := by
  obtain ⟨n, hn⟩ := (checkLoop_accepts_iff header hints c.Checkers).mpr hall
  have h0 : n = 0 := checkLoop_accept_code header hints c.Checkers n hn
  subst h0
  exact hn

/-- Instance of C2: three passing checkers with codes 1, 2, 3 give `(true, 0)`. -/
theorem Check_all_pass_witness :
    chainAllPass.verdict [1] [5] 0 = some (true, 1) ∧
      chainAllPass.verdict [1] [5] 1 = some (true, 2) ∧
      chainAllPass.verdict [1] [5] 2 = some (true, 3) ∧
      chainAllPass.Check [1] [5] = .ok (true, 0) :=
  ⟨rfl, rfl, rfl, Check_all_pass chainAllPass [1] [5] (by
    intro ck hck
    simp only [chainAllPass, List.mem_cons, List.mem_singleton, List.not_mem_nil,
      or_false] at hck
    rcases hck with h | h | h <;> subst h <;> rfl)⟩

/-- C3: on a chain without checkers `Check` returns `(true, 0)` for every
header and every hints: for any handler and description, for the zero value
`Chain{}`, and for `NewChain` called with no checkers. -/
theorem Check_empty (handler : Option (HandlerFn Conn Err)) (description : String)
    (header : List Byte) (hints : List Hint) :
    (Chain.mk handler [] description).Check header hints = .ok (true, 0) ∧
      (zeroChain : Chain Conn Err Hint).Check header hints = .ok (true, 0) ∧
      (NewChain handler []).Check header hints = .ok (true, 0) :=
  ⟨rfl, rfl, rfl⟩

/-- C4: `Check` returns accepted = true if and only if every checker of the
chain returns `ok = true` on `(header, hints)`; a rejecting checker anywhere in
the chain keeps `Check` from accepting, and when all function values are
present it makes `Check` return `(false, n)` for some `n`. -/
theorem Check_accepts_iff_all_pass (c : Chain Conn Err Hint) (header : List Byte)
    (hints : List Hint) :
    ((∃ n, c.Check header hints = .ok (true, n)) ↔
        ∀ ck ∈ c.Checkers, passes header hints ck = true) ∧
      ((∃ ck ∈ c.Checkers, rejects header hints ck = true) →
        ¬ ∃ n, c.Check header hints = .ok (true, n)) ∧
      ((∀ ck ∈ c.Checkers, ck ≠ none) →
        (∃ ck ∈ c.Checkers, rejects header hints ck = true) →
        ∃ n, c.Check header hints = .ok (false, n)) := by
  refine ⟨checkLoop_accepts_iff header hints c.Checkers, ?_,
    checkLoop_rejects_of_mem header hints c.Checkers⟩
  rintro ⟨ck, hck, hr⟩ hacc
  have hp := (checkLoop_accepts_iff header hints c.Checkers).mp hacc ck hck
  cases ck with
  | none => simp [rejects] at hr
  | some f => simp [rejects, passes] at hr hp; rw [hr] at hp; exact Bool.noConfusion hp

/-- Instance of C4: the chain with a rejecting second checker does not accept
and returns a rejection. -/
theorem Check_accepts_iff_all_pass_witness :
    (¬ ∃ n, chainPassRejectReject.Check [] [] = .ok (true, n)) ∧
      ∃ n, chainPassRejectReject.Check [] [] = .ok (false, n) :=
  have h := Check_accepts_iff_all_pass chainPassRejectReject [] []
  have hrej : ∃ ck ∈ chainPassRejectReject.Checkers, rejects [] [] ck = true :=
    ⟨some (constChecker false 7), by simp [chainPassRejectReject], rfl⟩
  ⟨h.2.1 hrej, h.2.2 (by simp [chainPassRejectReject]) hrej⟩

/-- C5: with every checker call recorded, if the checker at position `i`
rejects `(header, hints)` then no position after `i` is called by `Check`: it
occurs zero times among the positions called and has no entry in the call
record.  This holds for every rejecting position, so for the first one. -/
theorem Check_short_circuit (c : Chain Conn Err Hint) (header : List Byte) (hints : List Hint)
    (i j : Nat) (n : Int)
    (hi : c.verdict header hints i = some (false, n))
    (hj : i < j) :
    (c.invoked header hints).count j = 0 ∧
      ∀ e ∈ (c.CheckRecorded header hints).2, e.index ≠ j := by
  have hle : callCount header hints c.Checkers ≤ i + 1 :=
    callCount_le_of_reject header hints c.Checkers i n hi
  constructor
  · rw [List.count_eq_zero, invoked_eq_range, List.mem_range]
    omega
  · intro e he
    rw [CheckRecorded_eq] at he
    simp only [List.mem_map, List.mem_range] at he
    obtain ⟨k, hk, rfl⟩ := he
    simp only
    omega

/-- Instance of C5: the first checker returns `(false, 7)`; `Check` returns
`(false, 7)` and the second checker is called zero times. -/
theorem Check_short_circuit_witness :
    chainRejectPass.verdict [1, 2] [] 0 = some (false, 7) ∧
      chainRejectPass.Check [1, 2] [] = .ok (false, 7) ∧
      (chainRejectPass.invoked [1, 2] []).count 1 = 0 :=
  ⟨rfl, rfl, (Check_short_circuit chainRejectPass [1, 2] [] 0 1 7 rfl (by decide)).1⟩

/-- C6: with every checker call recorded, the positions called by one `Check`
call are `0, 1, ..., k - 1` in this order for some `k` that is at most the
number of checkers, no position is called twice, the recorded run returns what
`Check` returns, and when every checker passes all positions are called. -/
theorem Check_call_order (c : Chain Conn Err Hint) (header : List Byte) (hints : List Hint) :
    (c.CheckRecorded header hints).1 = c.Check header hints ∧
      c.invoked header hints = List.range (c.invoked header hints).length ∧
      (c.invoked header hints).length ≤ c.Checkers.length ∧
      (∀ j, j < (c.invoked header hints).length → (c.invoked header hints).count j = 1) ∧
      (∀ j, (c.invoked header hints).length ≤ j → (c.invoked header hints).count j = 0) ∧
      ((∀ ck ∈ c.Checkers, passes header hints ck = true) →
        c.invoked header hints = List.range c.Checkers.length) := by
  have hinv := invoked_eq_range c header hints
  have hlen : (c.invoked header hints).length = callCount header hints c.Checkers := by
    rw [hinv, List.length_range]
  refine ⟨by rw [CheckRecorded_eq], by rw [hlen, hinv], ?_, ?_, ?_, ?_⟩
  · rw [hlen]
    exact callCount_le_length header hints c.Checkers
  · intro j hj
    rw [hlen] at hj
    rw [hinv]
    exact List.count_eq_one_of_mem (List.nodup_range _) (List.mem_range.mpr hj)
  · intro j hj
    rw [hlen] at hj
    rw [hinv, List.count_eq_zero, List.mem_range]
    omega
  · intro hall
    rw [hinv, callCount_all_pass header hints c.Checkers hall]

/-- Instance of C6: three passing checkers are called in the order 0, 1, 2, and
a chain rejecting at position 1 calls the positions 0, 1 only. -/
theorem Check_call_order_witness :
    chainAllPass.invoked [9] [] = [0, 1, 2] ∧
      chainPassRejectReject.invoked [9] [] = [0, 1] :=
  ⟨((Check_call_order chainAllPass [9] []).2.2.2.2.2 (by
      intro ck hck
      simp only [chainAllPass, List.mem_cons, List.mem_singleton, List.not_mem_nil,
        or_false] at hck
      rcases hck with h | h | h <;> subst h <;> rfl)).trans rfl,
    ((Check_call_order chainPassRejectReject [9] []).2.1).trans rfl⟩

/-- C7: when a handler is configured, `Handle(conn)` returns exactly the pair
the handler returns on `conn`, whatever the checkers and the description of the
chain are. -/
theorem Handle_returns_handler_result (c : Chain Conn Err Hint) (handler : HandlerFn Conn Err)
    (conn : Conn) (hh : c.Handler = some handler) :
    c.Handle conn = .ok (handler conn) := by
  simp [Chain.Handle, hh]

/-- Instance of C7: a handler returning a sentinel error behind a chain that
rejects every input, and a succeeding handler. -/
theorem Handle_returns_handler_result_witness :
    chainRejectAll.Handle 5 = .ok (0, "sentinel") ∧
      chainAllPass.Handle 5 = .ok (105, "") :=
  ⟨Handle_returns_handler_result chainRejectAll errHandler 5 rfl,
    Handle_returns_handler_result chainAllPass okHandler 5 rfl⟩

/-- C8: `NewChain(handler, checkers...)` has the given handler, the given
checker sequence (same length, same element at every position) and the
description "Chain"; `Check` on it runs the loop over the given sequence, which
over present checkers is the short-circuit evaluation of the specification, and
`Handle` on it returns what the given handler returns. -/
theorem NewChain_fields (handler : Option (HandlerFn Conn Err))
    (checkers : List (Option (Checker Hint))) (fs : List (Checker Hint))
    (h : HandlerFn Conn Err) (header : List Byte) (hints : List Hint) (conn : Conn) (i : Nat) :
    (NewChain handler checkers).Handler = handler ∧
      (NewChain handler checkers).Checkers = checkers ∧
      (NewChain handler checkers).Checkers.length = checkers.length ∧
      (NewChain handler checkers).Checkers[i]? = checkers[i]? ∧
      (NewChain handler checkers).Description = "Chain" ∧
      (NewChain handler checkers).Check header hints = checkLoop header hints checkers ∧
      (NewChain handler (fs.map some)).Check header hints =
        .ok (shortCircuitEval header hints fs) ∧
      (NewChain (some h) checkers).Handle conn = .ok (h conn) :=
  ⟨rfl, rfl, rfl, rfl, rfl, rfl, checkLoop_map_some header hints fs, rfl⟩

/-- C9: `String()` returns the description of the chain verbatim, the empty
string included, and on a chain built by `NewChain` it returns "Chain" for
every handler and every checker sequence. -/
theorem String_returns_description (c : Chain Conn Err Hint)
    (handler : Option (HandlerFn Conn Err)) (checkers : List (Option (Checker Hint))) :
    c.String = c.Description ∧
      (Chain.mk handler checkers "").String = "" ∧
      (NewChain handler checkers).String = "Chain" :=
  ⟨rfl, rfl, rfl⟩

/-- C10: two chains whose checker sequences have the same length and the same
verdict on `(header, hints)` at every position return the same from `Check`,
whatever their handlers and descriptions; and every recorded checker call of
either chain received exactly the `header` and `hints` given to `Check`. -/
theorem Check_depends_on_verdicts (c1 c2 : Chain Conn Err Hint) (header : List Byte)
    (hints : List Hint)
    (hlen : c1.Checkers.length = c2.Checkers.length)
    (hv : ∀ j, c1.verdict header hints j = c2.verdict header hints j) :
    c1.Check header hints = c2.Check header hints ∧
      (∀ e ∈ (c1.CheckRecorded header hints).2, e.header = header ∧ e.hints = hints) ∧
      (∀ e ∈ (c2.CheckRecorded header hints).2, e.header = header ∧ e.hints = hints) := by
  refine ⟨checkLoop_congr header hints c1.Checkers c2.Checkers hlen hv, ?_, ?_⟩
  · intro e he
    rw [CheckRecorded_eq] at he
    simp only [List.mem_map] at he
    obtain ⟨k, _, rfl⟩ := he
    exact ⟨rfl, rfl⟩
  · intro e he
    rw [CheckRecorded_eq] at he
    simp only [List.mem_map] at he
    obtain ⟨k, _, rfl⟩ := he
    exact ⟨rfl, rfl⟩

/-- Instance of C10: two chains with different handlers, descriptions and
checkers, whose checkers agree on the header `[22]` and disagree on the empty
header, return the same on `[22]`. -/
theorem Check_depends_on_verdicts_witness :
    chainByteA.Check [22] [] = chainByteB.Check [22] [] ∧
      chainByteA.Check [22] [] = .ok (false, 4) ∧
      chainByteA.Check [] [] ≠ chainByteB.Check [] [] :=
  ⟨(Check_depends_on_verdicts chainByteA chainByteB [22] [] rfl (fun j =>
      match j with
      | 0 => rfl
      | 1 => rfl
      | _ + 2 => rfl)).1, rfl,
    fun h => absurd (show ((false, 5) : Bool × Int) = (false, 4) from Except.ok.inj h)
      (by decide)⟩

/-! ## Results on the chain as state, faults and the algebra of `Check` -/

/-- C11 as stated fails: the checkers and the handler are closures, and what
they write is written during `Check` and `Handle`.  On the chain
`[writerChecker, rejectSeven]` one `Check` call returns `(false, 7)` and leaves
a chain with another description, no checkers and no handler; one `Handle`
call leaves another description; and on the chain `[counterChecker]`, whose
fields stay as they are, `Check` returns `(true, 0)` and then, with the same
arguments, `(false, 2)`. -/
theorem methods_leave_chain_unchanged_counterexample :
    (writerRef.Check [1] [] heap0).1 = .ok (false, 7) ∧
      (writerRef.deref heap0).Description = "sample" ∧
      (writerRef.deref (writerRef.Check [1] [] heap0).2).Description = "changed" ∧
      (writerRef.deref heap0).Checkers.length = 2 ∧
      (writerRef.deref (writerRef.Check [1] [] heap0).2).Checkers.length = 0 ∧
      (writerRef.deref heap0).Handler.isSome = true ∧
      (writerRef.deref (writerRef.Check [1] [] heap0).2).Handler.isSome = false ∧
      (writerRef.Handle 5 heap0).1 = .ok (5, "") ∧
      (writerRef.deref (writerRef.Handle 5 heap0).2).Description = "handled" ∧
      (counterRef.Check [1] [] heap0).1 = .ok (true, 0) ∧
      counterRef.deref (counterRef.Check [1] [] heap0).2 = counterRef.deref heap0 ∧
      (counterRef.Check [1] [] (counterRef.Check [1] [] heap0).2).1 = .ok (false, 2) :=
  ⟨rfl, rfl, rfl, rfl, rfl, rfl, rfl, rfl, rfl, rfl, rfl, rfl⟩

/-- C11, amended: the methods themselves write no field.  With the chain read
from the ambient state through the receiver: `Check` leaves the chain (handler,
checker sequence, description) as it was whenever every checker of the chain
leaves it as it was, on the accepting, the rejecting and the faulting path;
`Handle` does whenever the handler does; `String` returns the description and
leaves the whole state as it was; and when the checkers leave the whole state
as it was, so does `Check`, and a second `Check` with the same arguments returns
what the first returned. -/
theorem methods_write_no_field {σ : Type} (c : ChainRef σ Conn Err Hint) (header : List Byte)
    (hints : List Hint) (conn : Conn) (s : σ)
    (hcheckers : ∀ f, some f ∈ (c.deref s).Checkers →
      ∀ t, c.deref (f header hints t).2 = c.deref t)
    (hhandler : ∀ h, (c.deref s).Handler = some h → c.deref (h conn s).2 = c.deref s) :
    c.deref (c.Check header hints s).2 = c.deref s ∧
      c.deref (c.Handle conn s).2 = c.deref s ∧
      (c.String s).2 = s ∧
      (c.String s).1 = (c.deref s).Description ∧
      ((∀ f, some f ∈ (c.deref s).Checkers → ∀ t, (f header hints t).2 = t) →
        (c.Check header hints s).2 = s ∧
          (c.Check header hints (c.Check header hints s).2).1 =
            (c.Check header hints s).1) := by
  refine ⟨checkLoopEff_frame c.deref header hints (c.deref s).Checkers s hcheckers,
    ?_, rfl, rfl, ?_⟩
  · unfold ChainRef.Handle
    cases hH : (c.deref s).Handler with
    | none => rfl
    | some h => exact hhandler h hH
  · intro hpure
    have hs : (c.Check header hints s).2 = s :=
      checkLoopEff_frame id header hints (c.deref s).Checkers s hpure
    exact ⟨hs, by rw [hs]⟩

/-- Instance of the amended C11: the counting checker writes to its counter
and not to the chain; after `Check` the counter is 1 and the chain is as it
was. -/
theorem methods_write_no_field_witness :
    (counterRef.Check [1] [] heap0).2.count = 1 ∧
      counterRef.deref (counterRef.Check [1] [] heap0).2 = counterRef.deref heap0 ∧
      counterRef.deref (counterRef.Handle 5 heap0).2 = counterRef.deref heap0 :=
  have h := methods_write_no_field counterRef [1] [] 5 heap0
    (fun f hf t => by
      simp only [counterRef, List.mem_singleton, Option.some.injEq] at hf
      subst hf
      rfl)
    (fun h hh => by simp [counterRef] at hh)
  ⟨rfl, h.1, h.2.1⟩

/-- C13: on a chain whose checkers are all present, `Check` returns a value for
every header and hints, of the form `(true, 0)` or `(false, n)`; the fault
branch is not taken. -/
theorem Check_never_faults (c : Chain Conn Err Hint) (header : List Byte) (hints : List Hint)
    (hpres : ∀ ck ∈ c.Checkers, ck ≠ none) :
    (c.Check header hints = .ok (true, 0) ∨ ∃ n, c.Check header hints = .ok (false, n)) ∧
      ∀ e, c.Check header hints ≠ .error e := by
  have h := checkLoop_present header hints c.Checkers hpres
  refine ⟨h, ?_⟩
  intro e he
  rcases h with h | ⟨n, h⟩
  · rw [Chain.Check] at he
    rw [h] at he
    cases he
  · rw [Chain.Check] at he
    rw [h] at he
    cases he

/-- Instance of C13: the empty header and empty hints on a chain of three
present checkers. -/
theorem Check_never_faults_witness :
    (chainPassRejectReject.Check [] [] = .ok (true, 0) ∨
        ∃ n, chainPassRejectReject.Check [] [] = .ok (false, n)) ∧
      ∀ e, chainPassRejectReject.Check [] [] ≠ .error e :=
  Check_never_faults chainPassRejectReject [] [] (by
    intro ck hck
    simp only [chainPassRejectReject, List.mem_cons, List.mem_singleton, List.not_mem_nil,
      or_false] at hck
    rcases hck with h | h | h <;> subst h <;> simp)

/-- C14: `NewChain` with a nil handler returns a chain with the given checkers
and the description "Chain"; `Check` and `String` on it return what they
return on the chain built with any present handler, for every header and
hints; `Handle` on it fails with the nil-call fault, for every connection. -/
theorem NewChain_nil_handler (checkers : List (Option (Checker Hint)))
    (handler : HandlerFn Conn Err) (header : List Byte) (hints : List Hint) (conn : Conn) :
    (NewChain (none : Option (HandlerFn Conn Err)) checkers).Handler = none ∧
      (NewChain (none : Option (HandlerFn Conn Err)) checkers).Checkers = checkers ∧
      (NewChain (none : Option (HandlerFn Conn Err)) checkers).Check header hints =
        (NewChain (some handler) checkers).Check header hints ∧
      (NewChain (none : Option (HandlerFn Conn Err)) checkers).String =
        (NewChain (some handler) checkers).String ∧
      (NewChain (none : Option (HandlerFn Conn Err)) checkers).Handle conn =
        .error Fault.nilFuncCall ∧
      (NewChain (some handler) checkers).Handle conn = .ok (handler conn) :=
  ⟨rfl, rfl, rfl, rfl, rfl, rfl⟩

/-- C15: for checker sequences `cs1` and `cs2`, `Check` over `cs1 ++ cs2`
returns what `Check` over `cs1` returns when that is a rejection `(false, n)`
(or a fault), and what `Check` over `cs2` returns when `Check` over `cs1`
accepts; so a chain that extends a rejecting chain never accepts. -/
theorem Check_append (handler : Option (HandlerFn Conn Err)) (description : String)
    (cs1 cs2 : List (Option (Checker Hint))) (header : List Byte) (hints : List Hint) :
    (∀ n, (Chain.mk handler cs1 description).Check header hints = .ok (false, n) →
        (Chain.mk handler (cs1 ++ cs2) description).Check header hints =
          (Chain.mk handler cs1 description).Check header hints) ∧
      (∀ n, (Chain.mk handler cs1 description).Check header hints = .ok (true, n) →
        (Chain.mk handler (cs1 ++ cs2) description).Check header hints =
          (Chain.mk handler cs2 description).Check header hints) ∧
      (∀ e, (Chain.mk handler cs1 description).Check header hints = .error e →
        (Chain.mk handler (cs1 ++ cs2) description).Check header hints =
          (Chain.mk handler cs1 description).Check header hints) ∧
      (∀ n, (Chain.mk handler cs1 description).Check header hints = .ok (false, n) →
        ∀ m, (Chain.mk handler (cs1 ++ cs2) description).Check header hints ≠
          .ok (true, m)) := by
  refine ⟨?_, ?_, ?_, ?_⟩
  · intro n h
    rw [h]
    exact checkLoop_append_of_reject header hints cs1 cs2 n h
  · intro n h
    exact checkLoop_append_of_accept header hints cs1 cs2 n h
  · intro e h
    rw [h]
    exact checkLoop_append_of_fault header hints cs1 cs2 e h
  · intro n h m hm
    have h2 : (Chain.mk handler (cs1 ++ cs2) description).Check header hints =
        .ok (false, n) := checkLoop_append_of_reject header hints cs1 cs2 n h
    rw [h2] at hm
    simp at hm

/-- Instance of C15: a chain rejecting with 7 extended by an accepting checker
still returns `(false, 7)`, and an accepting chain extended by the chain
rejecting with 7 returns `(false, 7)`. -/
theorem Check_append_witness :
    (Chain.mk (some okHandler) (chainRejectPass.Checkers ++ chainAllPass.Checkers)
        "ext").Check [1] ([] : List Nat) = .ok (false, 7) ∧
      (Chain.mk (some okHandler) (chainAllPass.Checkers ++ chainRejectPass.Checkers)
        "ext").Check [1] ([] : List Nat) = .ok (false, 7) :=
  have h1 := Check_append (some okHandler) "ext" chainRejectPass.Checkers
    chainAllPass.Checkers [1] ([] : List Nat)
  have h2 := Check_append (some okHandler) "ext" chainAllPass.Checkers
    chainRejectPass.Checkers [1] ([] : List Nat)
  ⟨(h1.1 7 rfl).trans rfl, (h2.2.1 0 rfl).trans rfl⟩

/-- C16: if the checker `f` returns `ok = true` on `(header, hints)`, with
whatever code, then the chain with `f` at any position (after `pre`, before
`post`) and the chain without it return the same from `Check`: inserting or
removing a passing checker does not change the result. -/
theorem Check_passing_checker_neutral (handler : Option (HandlerFn Conn Err))
    (description : String) (pre post : List (Option (Checker Hint))) (f : Checker Hint)
    (header : List Byte) (hints : List Hint) (m : Int)
    (hf : f header hints = (true, m)) :
    (Chain.mk handler (pre ++ some f :: post) description).Check header hints =
      (Chain.mk handler (pre ++ post) description).Check header hints :=
  checkLoop_insert_pass header hints f m hf pre post

/-- Instance of C16: a checker passing with code 42 put between the first and
the second checker of the chain pass 3, reject 7, reject 9. -/
theorem Check_passing_checker_neutral_witness :
    (Chain.mk (some okHandler)
        ([some (constChecker true 3)] ++ some (constChecker true 42) ::
          [some (constChecker false 7), some (constChecker false 9)])
        "sample").Check [1] ([] : List Nat) = .ok (false, 7) ∧
      chainPassRejectReject.Check [1] [] = .ok (false, 7) :=
  ⟨(Check_passing_checker_neutral (some okHandler) "sample" [some (constChecker true 3)]
      [some (constChecker false 7), some (constChecker false 9)] (constChecker true 42)
      [1] ([] : List Nat) 42 rfl).trans rfl, rfl⟩

/-- C17: if `Check` returns accepted = true then the code is 0; if it returns
`(false, n)` then a checker of the chain returns exactly `(false, n)` on
`(header, hints)`; and code 0 does not mean acceptance, since the chain whose
only checker rejects with code 0 returns `(false, 0)`. -/
theorem Check_result_shape (c : Chain Conn Err Hint) (header : List Byte) (hints : List Hint) :
    (∀ n, c.Check header hints = .ok (true, n) → n = 0) ∧
      (∀ n, c.Check header hints = .ok (false, n) →
        ∃ f, some f ∈ c.Checkers ∧ f header hints = (false, n)) ∧
      (Chain.mk c.Handler [some (constChecker false 0)] c.Description).Check header hints =
        .ok (false, 0) :=
  ⟨checkLoop_accept_code header hints c.Checkers,
    checkLoop_reject_mem header hints c.Checkers, rfl⟩

/-- Instance of C17: the chain whose only checker rejects with code 0 returns
`(false, 0)`, and the accepting chain returns code 0. -/
theorem Check_result_shape_witness :
    chainRejectZero.Check [1] [] = .ok (false, 0) ∧
      (∃ f, some f ∈ chainRejectZero.Checkers ∧ f [1] ([] : List Nat) = (false, 0)) ∧
      chainAllPass.Check [1] [] = .ok (true, 0) :=
  ⟨rfl, (Check_result_shape chainRejectZero [1] []).2.1 0 rfl, rfl⟩

end proto
